import Mathlib

/-!
A shallow embedding of src/serial_comm.py (module serial_comm).

Modelling conventions:

* Time is discrete, measured in poll ticks (the source sleeps about 1 ms
  between polls of ser.in_waiting); durations are integers so that negative
  caller-supplied durations are representable.
* The serial device is modelled by a function arr : Int -> List Byte giving
  the burst of bytes that arrives at each tick.  availAt arr c t is the
  content of the input buffer (ser.in_waiting, in order of arrival) at tick
  t when every byte that arrived at a tick < c has already been consumed by
  a read; a read of everything available at tick t moves c to t + 1.
* The while-loops of the source are modelled by structural recursion on an
  explicit step budget.  The budget chosen by the top-level wrappers is
  large enough for every terminating run of the corresponding loop; an
  exhausted budget is reported by a dedicated marker value and is never
  conflated with a genuine outcome of the loop.
* A pyserial handle is reduced to the observable facts the module consults:
  whether it is open, whether its close()/write() calls raise
  SerialException, and its configured read timeout.  The global dict
  _connections becomes an association list from port name to handle.
* time.sleep raises ValueError on a negative argument; this is modelled by
  the dedicated outcome SRResult.raised of the send/receive operation.
-/

/-- Byte values 0..255 as delivered by the serial transport. -/
abbrev Byte := Fin 256

/-- Observable state of one pyserial handle stored in _connections. -/
structure Handle where
  is_open : Bool
  closeRaises : Bool
  writeRaises : Bool
  timeout : Option Int
deriving DecidableEq

/-- The global dict _connections: Dict[str, serial.Serial]. -/
abbrev Registry := List (String × Handle)

/-- Dictionary lookup _connections[port] (with membership test). -/
def lookupKey : Registry → String → Option Handle
  | [], _ => none
  | (q, h) :: rest, port => if q = port then some h else lookupKey rest port

/-- Dictionary deletion del _connections[port]. -/
def eraseKey : Registry → String → Registry
  | [], _ => []
  | (q, h) :: rest, port =>
      if q = port then eraseKey rest port else (q, h) :: eraseKey rest port

/-- Dictionary assignment _connections[port] = ser (replaces any old entry). -/
def insertKey (reg : Registry) (port : String) (h : Handle) : Registry :=
  (port, h) :: eraseKey reg port

/-- is_port_open: port in _connections and _connections[port].is_open. -/
def is_port_open (reg : Registry) (port : String) : Bool :=
  match lookupKey reg port with
  | some h => h.is_open
  | none => false

/-- serial parity constants PARITY_NONE / PARITY_EVEN / ... -/
inductive Parity
  | none
  | even
  | odd
  | mark
  | space
deriving DecidableEq

/-- serial stop-bit constants STOPBITS_ONE / STOPBITS_ONE_POINT_FIVE / STOPBITS_TWO. -/
inductive StopBits
  | one
  | onePointFive
  | two
deriving DecidableEq

/-- The keyword arguments actually passed to serial.Serial(...). -/
structure MappedConfig where
  baudrate : Int
  bytesize : Nat
  parity : Parity
  stopbits : StopBits
  timeout : Option Int
  xonxoff : Bool
  rtscts : Bool
  dsrdtr : Bool
deriving DecidableEq

/-- str.upper() restricted to the ASCII case used by the module. -/
def pyUpper (s : String) : String := ⟨s.data.map Char.toUpper⟩

/-- str.lower() restricted to the ASCII case used by the module. -/
def pyLower (s : String) : String := ⟨s.data.map Char.toLower⟩

/-- bytesize_map.get(bytesize, serial.EIGHTBITS); the serial constants
FIVEBITS..EIGHTBITS are the numbers 5..8. -/
def mapBytesize (bytesize : Nat) : Nat :=
  if bytesize = 5 then 5
  else if bytesize = 6 then 6
  else if bytesize = 7 then 7
  else if bytesize = 8 then 8
  else 8

/-- parity_map.get(parity.upper(), serial.PARITY_NONE). -/
def mapParity (parity : String) : Parity :=
  if pyUpper parity = "N" then .none
  else if pyUpper parity = "E" then .even
  else if pyUpper parity = "O" then .odd
  else if pyUpper parity = "M" then .mark
  else if pyUpper parity = "S" then .space
  else .none

/-- stopbits_map.get(stopbits, serial.STOPBITS_ONE); keys 1, 1.5, 2. -/
def mapStopbits (stopbits : ℚ) : StopBits :=
  if stopbits = 1 then .one
  else if stopbits = 1.5 then .onePointFive
  else if stopbits = 2 then .two
  else .one

/-- The flow-control if/elif chain of initialize_port: produces the
(xonxoff, rtscts, dsrdtr) triple, all False for an unrecognized string. -/
def mapFlow (flow_control : String) : Bool × Bool × Bool :=
  if pyLower flow_control = "xonxoff" then (true, false, false)
  else if pyLower flow_control = "rtscts" then (false, true, false)
  else if pyLower flow_control = "dsrdtr" then (false, false, true)
  else (false, false, false)

/-- The full keyword-argument record built by initialize_port before the
serial.Serial(...) call. -/
def mappedConfig (baudrate : Int) (timeout : Option Int) (bytesize : Nat)
    (parity : String) (stopbits : ℚ) (flow_control : String) : MappedConfig :=
  let f := mapFlow flow_control
  { baudrate := baudrate
    bytesize := mapBytesize bytesize
    parity := mapParity parity
    stopbits := mapStopbits stopbits
    timeout := timeout
    xonxoff := f.1
    rtscts := f.2.1
    dsrdtr := f.2.2 }

/-- Outcome of initialize_port, abstracting the (bool, message) tuple. -/
inductive InitResult
  | opened
  | alreadyOpen
  | openFailed
deriving DecidableEq

/-- initialize_port.  The serial.Serial(...) constructor is the abstract
transport: it either yields a handle or raises (modelled as none, which the
source catches and turns into a failure tuple). -/
def initializePort (reg : Registry) (port : String) (baudrate : Int)
    (timeout : Option Int) (bytesize : Nat) (parity : String) (stopbits : ℚ)
    (flow_control : String) (transport : MappedConfig → Option Handle) :
    InitResult × Registry :=
  let cfg := mappedConfig baudrate timeout bytesize parity stopbits flow_control
  if is_port_open reg port then (.alreadyOpen, reg)
  else
    match transport cfg with
    | some h => (.opened, insertKey reg port h)
    | none => (.openFailed, reg)

/-- Status messages produced by close_port. -/
inductive CloseMsg
  | closedOk
  | notInitialized
  | serialError
deriving DecidableEq

/-- close_port.  Note the control flow of the source: if ser.close() raises,
the except-clause returns before del _connections[port] runs, so the entry
stays in the registry. -/
def close_port (reg : Registry) (port : String) : Bool × CloseMsg × Registry :=
  match lookupKey reg port with
  | none => (false, .notInitialized, reg)
  | some h =>
    if h.is_open then
      if h.closeRaises then (false, .serialError, reg)
      else (true, .closedOk, eraseKey reg port)
    else (true, .closedOk, eraseKey reg port)

/-- The for-loop of close_all_ports over a snapshot of the keys, threading
the registry through the successive close_port calls and collecting the
per-port failures in order. -/
def closeAllGo : List String → Registry → Bool × List (String × CloseMsg) × Registry
  | [], reg => (true, [], reg)
  | port :: ports, reg =>
    let res := close_port reg port
    let rest := closeAllGo ports res.2.2
    (res.1 && rest.1,
     (if res.1 then rest.2.1 else (port, res.2.1) :: rest.2.1),
     rest.2.2)

/-- close_all_ports: iterates close_port over list(_connections.keys());
success iff the error list is empty. -/
def close_all_ports (reg : Registry) : Bool × List (String × CloseMsg) × Registry :=
  closeAllGo (reg.map Prod.fst) reg

/-- Bytes arriving at ticks c, c+1, ..., c+n-1, concatenated in arrival
order. -/
def window (arr : Int → List Byte) (c : Int) : Nat → List Byte
  | 0 => []
  | n + 1 => window arr c n ++ arr (c + n)

/-- Buffer content (ser.in_waiting, as the list of unread bytes in arrival
order) at tick t when every byte arrived before tick c is consumed. -/
def availAt (arr : Int → List Byte) (c t : Int) : List Byte :=
  window arr c (t + 1 - c).toNat

/-- Exit of the wait-for-first-byte loop of _send_and_receive_bytes:
either the first byte was seen at tick t, or the loop returned the timeout
tuple at tick t. -/
inductive WaitOutcome
  | firstByte (t : Int)
  | timedOut (t : Int)
deriving DecidableEq

/-- The loop: while ser.in_waiting == 0: if elapsed > max_wait: return
timeout; sleep one tick.  Structural recursion on a step budget; none
means the budget ran out. -/
def waitFirstF (arr : Int → List Byte) (max_wait : Int) :
    Nat → Int → Option WaitOutcome
  | 0, _ => none
  | fuel + 1, t =>
    if (availAt arr 0 t).length = 0 then
      if t > max_wait then some (.timedOut t)
      else waitFirstF arr max_wait fuel (t + 1)
    else some (.firstByte t)

/-- Which break-statement ended the drain loop of _send_and_receive_bytes:
the inter-byte silence break (response complete) or the max-wait break. -/
inductive BreakReason
  | settled
  | maxWaitExceeded
deriving DecidableEq

/-- The drain loop: read all available bytes and reset last_read_time, else
break on inter-byte silence, else break on max-wait, else sleep one tick.
Returns the accumulated bytes, the break reason and the exit tick; none
means the step budget ran out. -/
def drainF (arr : Int → List Byte) (inter_byte_timeout max_wait : Int) :
    Nat → Int → Int → Int → List Byte → Option (List Byte × BreakReason × Int)
  | 0, _, _, _, _ => none
  | fuel + 1, t, c, last_read, acc =>
    if availAt arr c t ≠ [] then
      drainF arr inter_byte_timeout max_wait fuel t (t + 1) t
        (acc ++ availAt arr c t)
    else if t - last_read > inter_byte_timeout then some (acc, .settled, t)
    else if t > max_wait then some (acc, .maxWaitExceeded, t)
    else drainF arr inter_byte_timeout max_wait fuel (t + 1) c last_read acc

/-- Outcome of _send_and_receive_bytes.  received models the success tuple
(True, "Received n bytes", data); timeoutNoData the failure tuple (False,
"Timeout: No data received", b""); raised models a ValueError escaping from
time.sleep on a negative delay; outOfFuel is the exhausted step budget of
the model, never a behaviour of the source. -/
inductive SRResult
  | notOpen
  | sendFailed
  | raised
  | timeoutNoData
  | outOfFuel
  | received (data : List Byte) (reason : BreakReason)
deriving DecidableEq

/-- First component of the returned tuple (the success flag). -/
def SRResult.success : SRResult → Bool
  | .received _ _ => true
  | _ => false

/-- Byte payload of the returned tuple (b"" in every failure case). -/
def SRResult.bytes : SRResult → List Byte
  | .received data _ => data
  | _ => []

/-- Step budget for the wait-for-first-byte loop, sufficient for every
terminating run starting at tick initial_delay. -/
def wfFuel (initial_delay max_wait : Int) : Nat :=
  (max_wait + 1 - initial_delay).toNat + 2

/-- Step budget for the drain loop entered at tick t, sufficient for every
terminating run. -/
def drFuel (t max_wait : Int) : Nat :=
  2 * (max_wait + 2 - t).toNat + (t + 1).toNat + 2

/-- _send_and_receive_bytes.  The outbound write (send_data) is abstracted
to its success flag: it fails iff the handle's write raises; char-delay
pacing happens before start_time is taken and so never affects framing.
start_time is tick 0; time.sleep(initial_delay) raises ValueError when the
delay is negative, otherwise the first poll happens at tick initial_delay. -/
def sendAndReceiveBytes (reg : Registry) (port : String)
    (arr : Int → List Byte) (initial_delay inter_byte_timeout max_wait : Int) :
    SRResult :=
  match lookupKey reg port with
  | none => .notOpen
  | some h =>
    if h.is_open = false then .notOpen
    else if h.writeRaises = true then .sendFailed
    else if initial_delay < 0 then .raised
    else
      match waitFirstF arr max_wait (wfFuel initial_delay max_wait)
          initial_delay with
      | none => .outOfFuel
      | some (.timedOut _) => .timeoutNoData
      | some (.firstByte t) =>
        match drainF arr inter_byte_timeout max_wait (drFuel t max_wait)
            t 0 t [] with
        | none => .outOfFuel
        | some (data, reason, _) => .received data reason

/-- list(data_bytes): each byte widened to its integer value 0..255,
order preserved. -/
def toByteValues (data : List Byte) : List Nat := data.map Fin.val

/-- send_and_receive_hex: on success pairs True with list(data_bytes),
otherwise False with the empty list. -/
def send_and_receive_hex (reg : Registry) (port : String)
    (arr : Int → List Byte) (initial_delay inter_byte_timeout max_wait : Int) :
    Bool × List Nat :=
  match sendAndReceiveBytes reg port arr initial_delay inter_byte_timeout
      max_wait with
  | .received data _ => (true, toByteValues data)
  | _ => (false, [])

/-- Outcome of read_data; outOfFuel marks the exhausted step budget of the
model of the unbounded busy-wait (only reachable when no timeout is set). -/
inductive ReadResult
  | notOpen
  | timeoutNoData
  | outOfFuel
  | received (data : List Byte)
deriving DecidableEq

/-- The wait loop of read_data: while ser.in_waiting == 0: if ser.timeout
is not None: break.  Returns the tick at which the loop exited. -/
def readWaitF (arr : Int → List Byte) (timeoutSet : Bool) :
    Nat → Int → Option Int
  | 0, _ => none
  | fuel + 1, t =>
    if (availAt arr 0 t).length = 0 then
      if timeoutSet then some t
      else readWaitF arr timeoutSet fuel (t + 1)
    else some t

/-- read_data: wait (see readWaitF), then report the timeout tuple if the
buffer is still empty, else read everything available. -/
def read_data (reg : Registry) (port : String) (arr : Int → List Byte)
    (fuel : Nat) : ReadResult :=
  match lookupKey reg port with
  | none => .notOpen
  | some h =>
    if h.is_open = false then .notOpen
    else
      match readWaitF arr h.timeout.isSome fuel 0 with
      | none => .outOfFuel
      | some t =>
        if (availAt arr 0 t).length = 0 then .timeoutNoData
        else .received (availAt arr 0 t)

/-- read_data_as_hex: on success pairs True with list(data_bytes). -/
def read_data_as_hex (reg : Registry) (port : String) (arr : Int → List Byte)
    (fuel : Nat) : Bool × List Nat :=
  match read_data reg port arr fuel with
  | .received data => (true, toByteValues data)
  | _ => (false, [])

/-! Basic facts about the buffer model. -/

theorem window_eq_nil (arr : Int → List Byte) (c : Int) (n : Nat)
    (h : ∀ k : Nat, k < n → arr (c + k) = []) : window arr c n = [] := by
  induction n with
  | zero => rfl
  | succ n ih =>
    simp only [window]
    rw [ih (fun k hk => h k (Nat.lt_succ_of_lt hk)), h n (Nat.lt_succ_self n)]
    rfl

theorem window_eq_single (arr : Int → List Byte) (c : Int) (n : Nat) (b : Int)
    (hcb : c ≤ b) (hbn : b < c + n)
    (h : ∀ k : Nat, k < n → c + (k : Int) ≠ b → arr (c + k) = []) :
    window arr c n = arr b := by
  induction n with
  | zero => omega
  | succ n ih =>
    simp only [window]
    by_cases hb : c + (n : Int) = b
    · rw [window_eq_nil arr c n, hb, List.nil_append]
      intro k hk
      apply h k (Nat.lt_succ_of_lt hk)
      omega
    · rw [h n (Nat.lt_succ_self n) hb, List.append_nil]
      apply ih
      · push_cast at hbn ⊢
        omega
      · exact fun k hk => h k (Nat.lt_succ_of_lt hk)

theorem availAt_eq_nil (arr : Int → List Byte) (c t : Int)
    (h : ∀ s : Int, c ≤ s → s ≤ t → arr s = []) : availAt arr c t = [] := by
  apply window_eq_nil
  intro k hk
  apply h
  · omega
  · omega

theorem availAt_eq_single (arr : Int → List Byte) (c t b : Int)
    (hcb : c ≤ b) (hbt : b ≤ t)
    (h : ∀ s : Int, c ≤ s → s ≤ t → s ≠ b → arr s = []) :
    availAt arr c t = arr b := by
  apply window_eq_single arr c _ b hcb
  · omega
  · intro k hk hkb
    apply h
    · omega
    · omega
    · exact hkb

/-! Step lemmas for the wait-for-first-byte loop. -/

theorem waitFirstF_first (arr : Int → List Byte) (mw : Int) (fuel : Nat)
    (t : Int) (hav : availAt arr 0 t ≠ []) :
    waitFirstF arr mw (fuel + 1) t = some (.firstByte t) := by
  have : (availAt arr 0 t).length ≠ 0 := by
    simpa [List.length_eq_zero] using hav
  simp [waitFirstF, this]

theorem waitFirstF_timedOut_now (arr : Int → List Byte) (mw : Int) (fuel : Nat)
    (t : Int) (hav : availAt arr 0 t = []) (hmw : t > mw) :
    waitFirstF arr mw (fuel + 1) t = some (.timedOut t) := by
  simp [waitFirstF, hav, hmw]

theorem waitFirstF_step (arr : Int → List Byte) (mw : Int) (fuel : Nat)
    (t : Int) (hav : availAt arr 0 t = []) (hle : t ≤ mw) :
    waitFirstF arr mw (fuel + 1) t = waitFirstF arr mw fuel (t + 1) := by
  simp [waitFirstF, hav, show ¬ t > mw by omega]

theorem waitFirstF_run (arr : Int → List Byte) (mw : Int) (n : Nat) :
    ∀ (fuel : Nat) (t : Int),
      (∀ s : Int, t ≤ s → s < t + n → availAt arr 0 s = [] ∧ s ≤ mw) →
      waitFirstF arr mw (fuel + n) t = waitFirstF arr mw fuel (t + n) := by
  induction n with
  | zero => intro fuel t _; simp
  | succ n ih =>
    intro fuel t h
    obtain ⟨hav, hle⟩ := h t le_rfl (by omega)
    have h1 : fuel + (n + 1) = (fuel + n) + 1 := by omega
    rw [h1, waitFirstF_step arr mw (fuel + n) t hav hle]
    have h2 : t + ((n + 1 : Nat) : Int) = (t + 1) + (n : Int) := by
      push_cast
      ring
    rw [h2]
    apply ih
    intro s hs1 hs2
    exact h s (by omega) (by omega)

theorem waitFirstF_timedOut (arr : Int → List Byte) (mw B : Int)
    (hB : mw + 1 ≤ B) (hempty : ∀ s : Int, s ≤ B → arr s = []) :
    ∀ (fuel : Nat) (t : Int), 0 ≤ t → t ≤ B →
      (mw + 1 - t).toNat + 1 ≤ fuel →
      ∃ u : Int, 0 ≤ u ∧ u ≤ B ∧
        waitFirstF arr mw fuel t = some (.timedOut u) := by
  intro fuel
  induction fuel with
  | zero => intro t _ _ hf; omega
  | succ fuel ih =>
    intro t ht0 htB hf
    have hav : availAt arr 0 t = [] :=
      availAt_eq_nil _ _ _ (fun s _ hst => hempty s (le_trans hst htB))
    by_cases hmw : t > mw
    · exact ⟨t, ht0, htB, waitFirstF_timedOut_now arr mw fuel t hav hmw⟩
    · rw [waitFirstF_step arr mw fuel t hav (by omega)]
      exact ih (t + 1) (by omega) (by omega) (by omega)

theorem waitFirstF_firstByte_avail (arr : Int → List Byte) (mw : Int) :
    ∀ (fuel : Nat) (t u : Int),
      waitFirstF arr mw fuel t = some (.firstByte u) →
      availAt arr 0 u ≠ [] := by
  intro fuel
  induction fuel with
  | zero => intro t u h; simp [waitFirstF] at h
  | succ fuel ih =>
    intro t u h
    by_cases hav : (availAt arr 0 t).length = 0
    · by_cases hmw : t > mw
      · simp [waitFirstF, hav, hmw] at h
      · rw [waitFirstF_step arr mw fuel t (List.length_eq_zero.mp hav)
            (by omega)] at h
        exact ih (t + 1) u h
    · have hne : availAt arr 0 t ≠ [] := by
        simpa [List.length_eq_zero] using hav
      rw [waitFirstF_first arr mw fuel t hne] at h
      have hu : t = u := by
        injection h with h2
        injection h2
      rwa [← hu]

/-! Step lemmas for the drain loop. -/

theorem drainF_read (arr : Int → List Byte) (ibt mw : Int) (fuel : Nat)
    (t c lr : Int) (acc : List Byte) (hav : availAt arr c t ≠ []) :
    drainF arr ibt mw (fuel + 1) t c lr acc =
      drainF arr ibt mw fuel t (t + 1) t (acc ++ availAt arr c t) := by
  simp [drainF, hav]

theorem drainF_settled (arr : Int → List Byte) (ibt mw : Int) (fuel : Nat)
    (t c lr : Int) (acc : List Byte) (hav : availAt arr c t = [])
    (hsil : t - lr > ibt) :
    drainF arr ibt mw (fuel + 1) t c lr acc = some (acc, .settled, t) := by
  simp [drainF, hav, hsil]

theorem drainF_maxWait (arr : Int → List Byte) (ibt mw : Int) (fuel : Nat)
    (t c lr : Int) (acc : List Byte) (hav : availAt arr c t = [])
    (hsil : ¬ t - lr > ibt) (hmw : t > mw) :
    drainF arr ibt mw (fuel + 1) t c lr acc =
      some (acc, .maxWaitExceeded, t) := by
  simp [drainF, hav, hsil, hmw]

theorem drainF_sleep (arr : Int → List Byte) (ibt mw : Int) (fuel : Nat)
    (t c lr : Int) (acc : List Byte) (hav : availAt arr c t = [])
    (hsil : ¬ t - lr > ibt) (hmw : ¬ t > mw) :
    drainF arr ibt mw (fuel + 1) t c lr acc =
      drainF arr ibt mw fuel (t + 1) c lr acc := by
  simp [drainF, hav, hsil, hmw]

theorem drainF_sleep_run (arr : Int → List Byte) (ibt mw c lr : Int)
    (acc : List Byte) (n : Nat) :
    ∀ (fuel : Nat) (t : Int),
      (∀ s : Int, t ≤ s → s < t + n →
        availAt arr c s = [] ∧ s - lr ≤ ibt ∧ s ≤ mw) →
      drainF arr ibt mw (fuel + n) t c lr acc =
        drainF arr ibt mw fuel (t + n) c lr acc := by
  induction n with
  | zero => intro fuel t _; simp
  | succ n ih =>
    intro fuel t h
    obtain ⟨hav, hsil, hle⟩ := h t le_rfl (by omega)
    have h1 : fuel + (n + 1) = (fuel + n) + 1 := by omega
    rw [h1, drainF_sleep arr ibt mw (fuel + n) t c lr acc hav
      (by omega) (by omega)]
    have h2 : t + ((n + 1 : Nat) : Int) = (t + 1) + (n : Int) := by
      push_cast
      ring
    rw [h2]
    apply ih
    intro s hs1 hs2
    exact h s (by omega) (by omega)

theorem drainF_drained (arr : Int → List Byte) (ibt mw c : Int)
    (hc : ∀ s : Int, c ≤ s → arr s = []) :
    ∀ (fuel : Nat) (t lr : Int) (acc : List Byte),
      min (mw + 1 - t).toNat (ibt + 1 - (t - lr)).toNat + 1 ≤ fuel →
      ∃ r u, drainF arr ibt mw fuel t c lr acc = some (acc, r, u) := by
  intro fuel
  induction fuel with
  | zero => intro t lr acc hf; omega
  | succ fuel ih =>
    intro t lr acc hf
    have hav : availAt arr c t = [] :=
      availAt_eq_nil _ _ _ (fun s hs _ => hc s hs)
    by_cases hsil : t - lr > ibt
    · exact ⟨.settled, t, drainF_settled arr ibt mw fuel t c lr acc hav hsil⟩
    · by_cases hmw : t > mw
      · exact ⟨.maxWaitExceeded, t,
          drainF_maxWait arr ibt mw fuel t c lr acc hav hsil hmw⟩
      · rw [drainF_sleep arr ibt mw fuel t c lr acc hav hsil hmw]
        exact ih (t + 1) lr acc (by omega)

theorem drainF_prefix (arr : Int → List Byte) (ibt mw : Int) :
    ∀ (fuel : Nat) (t c lr : Int) (acc data : List Byte) (r : BreakReason)
      (u : Int),
      drainF arr ibt mw fuel t c lr acc = some (data, r, u) →
      ∃ rest, data = acc ++ rest := by
  intro fuel
  induction fuel with
  | zero => intro t c lr acc data r u h; simp [drainF] at h
  | succ fuel ih =>
    intro t c lr acc data r u h
    by_cases hav : availAt arr c t ≠ []
    · rw [drainF_read arr ibt mw fuel t c lr acc hav] at h
      obtain ⟨rest, hrest⟩ := ih t (t + 1) t (acc ++ availAt arr c t)
        data r u h
      exact ⟨availAt arr c t ++ rest, by simp [hrest]⟩
    · push_neg at hav
      by_cases hsil : t - lr > ibt
      · rw [drainF_settled arr ibt mw fuel t c lr acc hav hsil] at h
        injection h with h2
        exact ⟨[], by simpa using (congrArg Prod.fst h2).symm⟩
      · by_cases hmw : t > mw
        · rw [drainF_maxWait arr ibt mw fuel t c lr acc hav hsil hmw] at h
          injection h with h2
          exact ⟨[], by simpa using (congrArg Prod.fst h2).symm⟩
        · rw [drainF_sleep arr ibt mw fuel t c lr acc hav hsil hmw] at h
          exact ih (t + 1) c lr acc data r u h

/-! Registry lemmas. -/

theorem lookupKey_eraseKey (reg : Registry) (port : String) :
    lookupKey (eraseKey reg port) port = none := by
  induction reg with
  | nil => rfl
  | cons e rest ih =>
    obtain ⟨q, hh⟩ := e
    by_cases hqp : q = port
    · simpa [eraseKey, hqp] using ih
    · simpa [eraseKey, lookupKey, hqp] using ih

theorem eraseKey_of_not_mem (reg : Registry) (port : String)
    (h : port ∉ reg.map Prod.fst) : eraseKey reg port = reg := by
  induction reg with
  | nil => rfl
  | cons e rest ih =>
    obtain ⟨q, hh⟩ := e
    simp only [List.map_cons, List.mem_cons] at h
    push_neg at h
    have hqp : ¬ q = port := fun hq => h.1 hq.symm
    simp only [eraseKey, if_neg hqp, ih h.2]

theorem close_port_cons_ne (p q : String) (hh : Handle) (r : Registry)
    (hpq : p ≠ q) :
    close_port ((p, hh) :: r) q =
      ((close_port r q).1, (close_port r q).2.1,
        (p, hh) :: (close_port r q).2.2) := by
  unfold close_port
  simp only [lookupKey, if_neg hpq]
  cases hlk : lookupKey r q with
  | none => rfl
  | some h =>
    by_cases ho : h.is_open
    · by_cases hc : h.closeRaises
      · simp [ho, hc]
      · simp [ho, hc, eraseKey, if_neg hpq]
    · simp [ho, eraseKey, if_neg hpq]

theorem closeAllGo_cons_skip (ports : List String) :
    ∀ (p : String) (hh : Handle) (r : Registry), p ∉ ports →
      closeAllGo ports ((p, hh) :: r) =
        ((closeAllGo ports r).1, (closeAllGo ports r).2.1,
          (p, hh) :: (closeAllGo ports r).2.2) := by
  induction ports with
  | nil => intro p hh r _; rfl
  | cons q ports ih =>
    intro p hh r hp
    simp only [List.mem_cons] at hp
    push_neg at hp
    simp only [closeAllGo, close_port_cons_ne p q hh r hp.1,
      ih p hh (close_port r q).2.2 hp.2]

/-- Reduction of the guard section of sendAndReceiveBytes for an open,
writable handle and a non-negative initial delay. -/
theorem sendAndReceiveBytes_eq (reg : Registry) (port : String) (h : Handle)
    (arr : Int → List Byte) (d0 ibt mw : Int)
    (hlook : lookupKey reg port = some h) (hopen : h.is_open = true)
    (hw : h.writeRaises = false) (hd0 : ¬ d0 < 0) :
    sendAndReceiveBytes reg port arr d0 ibt mw =
      match waitFirstF arr mw (wfFuel d0 mw) d0 with
      | none => .outOfFuel
      | some (.timedOut _) => .timeoutNoData
      | some (.firstByte t) =>
        match drainF arr ibt mw (drFuel t mw) t 0 t [] with
        | none => .outOfFuel
        | some (data, reason, _) => .received data reason := by
  unfold sendAndReceiveBytes
  rw [hlook]
  simp [hopen, hw, hd0]

/-- Composition: a timed-out wait loop yields the timeout tuple. -/
theorem sendAndReceiveBytes_eq_timeout (reg : Registry) (port : String)
    (h : Handle) (arr : Int → List Byte) (d0 ibt mw u : Int)
    (hlook : lookupKey reg port = some h) (hopen : h.is_open = true)
    (hw : h.writeRaises = false) (hd0 : ¬ d0 < 0)
    (hwait : waitFirstF arr mw (wfFuel d0 mw) d0 = some (.timedOut u)) :
    sendAndReceiveBytes reg port arr d0 ibt mw = .timeoutNoData := by
  rw [sendAndReceiveBytes_eq reg port h arr d0 ibt mw hlook hopen hw hd0,
    hwait]

/-- Composition: a first byte at tick t followed by a completed drain loop
yields the success tuple with the drained bytes. -/
theorem sendAndReceiveBytes_eq_received (reg : Registry) (port : String)
    (h : Handle) (arr : Int → List Byte) (d0 ibt mw t u : Int)
    (data : List Byte) (r : BreakReason)
    (hlook : lookupKey reg port = some h) (hopen : h.is_open = true)
    (hw : h.writeRaises = false) (hd0 : ¬ d0 < 0)
    (hwait : waitFirstF arr mw (wfFuel d0 mw) d0 = some (.firstByte t))
    (hdrain : drainF arr ibt mw (drFuel t mw) t 0 t [] = some (data, r, u)) :
    sendAndReceiveBytes reg port arr d0 ibt mw = .received data r := by
  rw [sendAndReceiveBytes_eq reg port h arr d0 ibt mw hlook hopen hw hd0,
    hwait]
  show (match drainF arr ibt mw (drFuel t mw) t 0 t [] with
    | none => SRResult.outOfFuel
    | some (data, reason, _) => SRResult.received data reason) = _
  rw [hdrain]

/-! Concrete fixtures used by the closed theorems below. -/

/-- A registry with one open handle whose close() raises SerialException. -/
def regRaise : Registry := [("COM1", ⟨true, true, false, none⟩)]

/-- A registry with one open, well-behaved handle and no read timeout. -/
def regOpen : Registry := [("COM1", ⟨true, false, false, none⟩)]

/-- A registry with one open handle configured with a finite read timeout
of 1000 ticks. -/
def regTimeout : Registry := [("COM1", ⟨true, false, false, some 1000⟩)]

/-- A device that is silent at the moment of the call and delivers one byte
one tick later. -/
def arrLate : Int → List Byte := fun t => if t = 1 then [(65 : Byte)] else []

/-- A device that delivers one byte immediately and nothing afterwards. -/
def arrBurst0 : Int → List Byte := fun t => if t = 0 then [(65 : Byte)] else []

/-- C1.  The claim fails on the code: when the underlying close() raises,
close_port returns from the except-clause before del _connections[port]
runs, so the entry survives and is_port_open still reports true. -/
theorem c1_counterexample :
    (close_port regRaise "COM1").1 = false ∧
    (close_port regRaise "COM1").2.2 = regRaise ∧
    is_port_open (close_port regRaise "COM1").2.2 "COM1" = true := by
  decide

/-- C1 (amended): close_port on a registered id removes the entry (after
which is_port_open is false) exactly when the underlying close() does not
raise or the handle is already closed; when the open handle's close()
raises, close_port returns a failure and leaves the registry, including the
entry for the id, unchanged. -/
theorem c1_close_removes_only_without_error (reg : Registry) (port : String)
    (h : Handle) (hlook : lookupKey reg port = some h) :
    (h.is_open = true → h.closeRaises = true →
      close_port reg port = (false, .serialError, reg)) ∧
    (h.is_open = false ∨ h.closeRaises = false →
      (close_port reg port).1 = true ∧
      is_port_open (close_port reg port).2.2 port = false) := by
  constructor
  · intro ho hc
    unfold close_port
    rw [hlook]
    simp [ho, hc]
  · intro hcase
    have hres : (close_port reg port).2.2 = eraseKey reg port := by
      unfold close_port
      rw [hlook]
      rcases hcase with hc | hc
      · simp [hc]
      · by_cases ho : h.is_open <;> simp [ho, hc]
    have hfst : (close_port reg port).1 = true := by
      unfold close_port
      rw [hlook]
      rcases hcase with hc | hc
      · simp [hc]
      · by_cases ho : h.is_open <;> simp [ho, hc]
    refine ⟨hfst, ?_⟩
    rw [hres]
    unfold is_port_open
    rw [lookupKey_eraseKey]

/-- C1 witness: the amended theorem applied to a concrete registry whose
handle closes cleanly, and to one whose handle raises. -/
theorem c1_close_removes_only_without_error_witness :
    ((close_port regOpen "COM1").1 = true ∧
      is_port_open (close_port regOpen "COM1").2.2 "COM1" = false) ∧
    close_port regRaise "COM1" = (false, .serialError, regRaise) :=
  ⟨(c1_close_removes_only_without_error regOpen "COM1"
      ⟨true, false, false, none⟩ (by decide)).2 (Or.inr (by decide)),
   (c1_close_removes_only_without_error regRaise "COM1"
      ⟨true, true, false, none⟩ (by decide)).1 (by decide) (by decide)⟩

/-- C2.  The code has the immediate-break bug the specification warns
about: with any finite configured timeout, read_data leaves the wait loop
on its first iteration, so whenever the buffer is empty at the moment of
the call it returns the timeout tuple at once, no matter how soon
afterwards (and how far within the configured timeout) data would arrive. -/
theorem c2_immediate_timeout_bug (reg : Registry) (port : String)
    (h : Handle) (arr : Int → List Byte) (fuel : Nat)
    (hlook : lookupKey reg port = some h) (hopen : h.is_open = true)
    (hto : h.timeout.isSome = true) (hnow : arr 0 = []) :
    read_data reg port arr (fuel + 1) = .timeoutNoData := by
  have hav : availAt arr 0 0 = [] := by
    apply availAt_eq_nil
    intro s hs1 hs2
    have : s = 0 := by omega
    rw [this, hnow]
  unfold read_data
  rw [hlook]
  simp [hopen, readWaitF, hav, hto]

/-- C2 witness: concrete failing input.  The port is open with a finite
timeout of 1000 ticks, the buffer is empty at the call, and a byte arrives
a single tick later (well within the timeout); read_data nevertheless
returns the timeout tuple. -/
theorem c2_immediate_timeout_bug_witness :
    read_data regTimeout "COM1" arrLate 5 = .timeoutNoData :=
  c2_immediate_timeout_bug regTimeout "COM1" ⟨true, false, false, some 1000⟩
    arrLate 4 (by decide) (by decide) (by decide) (by decide)

/-- C3.  The claim fails on the code: _send_and_receive_bytes performs no
validation, and a negative initial delay reaches time.sleep, whose
ValueError propagates out of the public operation instead of being turned
into a configuration-error result. -/
theorem c3_counterexample :
    sendAndReceiveBytes regOpen "COM1" (fun _ => []) (-1) 5 5 = .raised := by
  decide

/-- C3 (amended): negative durations are not validated and no
configuration-error result exists.  A negative initial delay makes
time.sleep raise a ValueError that escapes the public operation; a
negative max-wait merely produces the ordinary timeout failure tuple when
nothing is buffered after the initial delay; a negative inter-byte-silence
window makes the drain loop settle immediately after the first read, so
the call succeeds with exactly the bytes available at the first poll. -/
theorem c3_negative_durations (reg : Registry) (port : String) (h : Handle)
    (arr : Int → List Byte) (d0 ibt mw : Int)
    (hlook : lookupKey reg port = some h) (hopen : h.is_open = true)
    (hw : h.writeRaises = false) :
    (d0 < 0 → sendAndReceiveBytes reg port arr d0 ibt mw = .raised) ∧
    (mw < 0 → 0 ≤ d0 → availAt arr 0 d0 = [] →
      sendAndReceiveBytes reg port arr d0 ibt mw = .timeoutNoData) ∧
    (ibt < 0 → 0 ≤ d0 → availAt arr 0 d0 ≠ [] →
      sendAndReceiveBytes reg port arr d0 ibt mw =
        .received (availAt arr 0 d0) .settled) := by
  refine ⟨?_, ?_, ?_⟩
  · intro hd0
    unfold sendAndReceiveBytes
    rw [hlook]
    simp [hopen, hw, hd0]
  · intro hmw hd0 hav
    rw [sendAndReceiveBytes_eq reg port h arr d0 ibt mw hlook hopen hw
      (by omega)]
    obtain ⟨W, hWf⟩ : ∃ W, wfFuel d0 mw = W + 1 :=
      ⟨wfFuel d0 mw - 1, by unfold wfFuel; omega⟩
    rw [hWf, waitFirstF_timedOut_now arr mw W d0 hav (by omega)]
  · intro hibt hd0 hav
    obtain ⟨W, hWf⟩ : ∃ W, wfFuel d0 mw = W + 1 :=
      ⟨wfFuel d0 mw - 1, by unfold wfFuel; omega⟩
    obtain ⟨F, hF⟩ : ∃ F, drFuel d0 mw = F + 2 :=
      ⟨drFuel d0 mw - 2, by unfold drFuel; omega⟩
    apply sendAndReceiveBytes_eq_received reg port h arr d0 ibt mw d0 d0
      (availAt arr 0 d0) .settled hlook hopen hw (by omega)
    · rw [hWf, waitFirstF_first arr mw W d0 hav]
    · rw [hF, show F + 2 = (F + 1) + 1 by omega,
        drainF_read arr ibt mw (F + 1) d0 0 d0 [] hav,
        drainF_settled arr ibt mw F d0 (d0 + 1) d0 ([] ++ availAt arr 0 d0)
          (availAt_eq_nil arr (d0 + 1) d0 (by intro s hs1 hs2; omega))
          (by omega)]
      simp

/-- C3 witness: the amended theorem applied at concrete negative
durations. -/
theorem c3_negative_durations_witness :
    sendAndReceiveBytes regOpen "COM1" arrBurst0 (-1) 5 5 = .raised ∧
    sendAndReceiveBytes regOpen "COM1" (fun _ => []) 0 5 (-1) =
      .timeoutNoData ∧
    sendAndReceiveBytes regOpen "COM1" arrBurst0 0 (-1) 5 =
      .received (availAt arrBurst0 0 0) .settled :=
  ⟨(c3_negative_durations regOpen "COM1" ⟨true, false, false, none⟩
      arrBurst0 (-1) 5 5 (by decide) (by decide) (by decide)).1 (by decide),
   (c3_negative_durations regOpen "COM1" ⟨true, false, false, none⟩
      (fun _ => []) 0 5 (-1) (by decide) (by decide) (by decide)).2.1
      (by decide) (by decide) (by decide),
   (c3_negative_durations regOpen "COM1" ⟨true, false, false, none⟩
      arrBurst0 0 (-1) 5 (by decide) (by decide) (by decide)).2.2
      (by decide) (by decide) (by decide)⟩

/-- C4: whenever max-wait elapses (strictly, in the source's comparison)
before any byte has arrived, _send_and_receive_bytes returns the
timeout-before-first-byte tuple with empty payload; and with max-wait 0,
initial delay 0 and an idle device the wait loop exits with the timeout
outcome after a single poll tick, i.e. without blocking. -/
theorem c4_timeout_before_first_byte (reg : Registry) (port : String)
    (h : Handle) (arr : Int → List Byte) (d0 ibt mw : Int)
    (hlook : lookupKey reg port = some h) (hopen : h.is_open = true)
    (hw : h.writeRaises = false) (hd0 : 0 ≤ d0)
    (hempty : ∀ s : Int, s ≤ max d0 (mw + 1) → arr s = []) :
    sendAndReceiveBytes reg port arr d0 ibt mw = .timeoutNoData ∧
    (sendAndReceiveBytes reg port arr d0 ibt mw).bytes = [] ∧
    (sendAndReceiveBytes reg port arr d0 ibt mw).success = false ∧
    (mw = 0 → d0 = 0 →
      waitFirstF arr mw (wfFuel d0 mw) d0 = some (.timedOut 1)) := by
  have hmain : sendAndReceiveBytes reg port arr d0 ibt mw = .timeoutNoData := by
    obtain ⟨u, -, -, hu⟩ :=
      waitFirstF_timedOut arr mw (max d0 (mw + 1)) (by omega) hempty
        (wfFuel d0 mw) d0 hd0 (by omega) (by unfold wfFuel; omega)
    exact sendAndReceiveBytes_eq_timeout reg port h arr d0 ibt mw u hlook
      hopen hw (by omega) hu
  refine ⟨hmain, by rw [hmain]; rfl, by rw [hmain]; rfl, ?_⟩
  intro hmw hd
  subst hmw hd
  have h0 : availAt arr 0 0 = [] := by
    apply availAt_eq_nil
    intro s hs1 hs2
    exact hempty s (by omega)
  have h1 : availAt arr 0 1 = [] := by
    apply availAt_eq_nil
    intro s hs1 hs2
    exact hempty s (by omega)
  have hwf : wfFuel 0 0 = 3 := by unfold wfFuel; rfl
  rw [hwf, show (3 : Nat) = 2 + 1 by rfl,
    waitFirstF_step arr 0 2 0 h0 (by omega),
    show (0 : Int) + 1 = 1 by norm_num,
    show (2 : Nat) = 1 + 1 by rfl,
    waitFirstF_timedOut_now arr 0 1 1 h1 (by omega)]

/-- C4 witness: the theorem applied to an idle device with max-wait 0. -/
theorem c4_timeout_before_first_byte_witness :
    sendAndReceiveBytes regOpen "COM1" (fun _ => []) 0 5 0 = .timeoutNoData ∧
    waitFirstF (fun _ => []) 0 (wfFuel 0 0) 0 = some (.timedOut 1) := by
  obtain ⟨h1, -, -, h4⟩ :=
    c4_timeout_before_first_byte regOpen "COM1" ⟨true, false, false, none⟩
      (fun _ => []) 0 5 0 (by decide) (by decide) (by decide) (by decide)
      (fun s _ => rfl)
  exact ⟨h1, h4 rfl rfl⟩

/-- Any success tuple of _send_and_receive_bytes carries at least one byte:
the drain loop is only entered after the wait loop saw a non-empty buffer,
and its first iteration reads that buffer. -/
theorem sendAndReceiveBytes_received_ne_nil (reg : Registry) (port : String)
    (arr : Int → List Byte) (d0 ibt mw : Int) (data : List Byte)
    (r : BreakReason)
    (hres : sendAndReceiveBytes reg port arr d0 ibt mw = .received data r) :
    data ≠ [] := by
  unfold sendAndReceiveBytes at hres
  cases hlk : lookupKey reg port with
  | none => rw [hlk] at hres; exact absurd hres (by simp)
  | some h =>
    rw [hlk] at hres
    dsimp only at hres
    by_cases ho : h.is_open = false
    · rw [if_pos ho] at hres; exact absurd hres (by simp)
    rw [if_neg ho] at hres
    by_cases hwr : h.writeRaises = true
    · rw [if_pos hwr] at hres; exact absurd hres (by simp)
    rw [if_neg hwr] at hres
    by_cases hd : d0 < 0
    · rw [if_pos hd] at hres; exact absurd hres (by simp)
    rw [if_neg hd] at hres
    cases hwf : waitFirstF arr mw (wfFuel d0 mw) d0 with
    | none => rw [hwf] at hres; exact absurd hres (by simp)
    | some w =>
      rw [hwf] at hres
      cases w with
      | timedOut u => exact absurd hres (by simp)
      | firstByte t =>
        dsimp only at hres
        have havail : availAt arr 0 t ≠ [] :=
          waitFirstF_firstByte_avail arr mw (wfFuel d0 mw) d0 t hwf
        cases hdr : drainF arr ibt mw (drFuel t mw) t 0 t [] with
        | none => rw [hdr] at hres; exact absurd hres (by simp)
        | some out =>
          obtain ⟨d2, r2, u2⟩ := out
          rw [hdr] at hres
          have hd2 : d2 = data := by
            injection hres
          obtain ⟨F, hF⟩ : ∃ F, drFuel t mw = F + 1 :=
            ⟨drFuel t mw - 1, by unfold drFuel; omega⟩
          rw [hF, drainF_read arr ibt mw F t 0 t [] havail] at hdr
          obtain ⟨rest, hrest⟩ :=
            drainF_prefix arr ibt mw F t (t + 1) t ([] ++ availAt arr 0 t)
              d2 r2 u2 hdr
          rw [← hd2, hrest]
          simp only [List.nil_append]
          intro hcontra
          exact havail (List.append_eq_nil.mp hcontra).1

/-- C5: when the drain loop of _send_and_receive_bytes stops because total
elapsed time exceeded max-wait, the operation still returns the success
tuple (True, ...) carrying every byte accumulated so far — the accumulator
passed into the drain loop is always a prefix of the returned payload, and
the payload is non-empty — whereas the timeout-before-first-byte outcome is
a failure tuple carrying b"". -/
theorem c5_maxwait_keeps_bytes (reg : Registry) (port : String)
    (arr : Int → List Byte) (d0 ibt mw : Int) :
    (∀ data, sendAndReceiveBytes reg port arr d0 ibt mw =
        .received data .maxWaitExceeded →
      data ≠ [] ∧
      (SRResult.received data .maxWaitExceeded).success = true) ∧
    (∀ (fuel : Nat) (t c lr : Int) (acc data : List Byte) (r : BreakReason)
      (u : Int), drainF arr ibt mw fuel t c lr acc = some (data, r, u) →
      ∃ rest, data = acc ++ rest) ∧
    SRResult.timeoutNoData.bytes = ([] : List Byte) ∧
    SRResult.timeoutNoData.success = false := by
  refine ⟨?_, ?_, rfl, rfl⟩
  · intro data hres
    exact ⟨sendAndReceiveBytes_received_ne_nil reg port arr d0 ibt mw data
      .maxWaitExceeded hres, rfl⟩
  · intro fuel t c lr acc data r u hdr
    exact drainF_prefix arr ibt mw fuel t c lr acc data r u hdr

/-- C5 witness: a device that answers with one byte immediately while
max-wait is 0 makes the drain loop stop through the max-wait break; the
success tuple still carries the byte. -/
theorem c5_maxwait_keeps_bytes_witness :
    sendAndReceiveBytes regOpen "COM1" arrBurst0 0 10 0 =
      .received [(65 : Byte)] .maxWaitExceeded ∧
    ([(65 : Byte)] : List Byte) ≠ [] := by
  refine ⟨by decide, ?_⟩
  exact ((c5_maxwait_keeps_bytes regOpen "COM1" arrBurst0 0 10 0).1
    [(65 : Byte)] (by decide)).1

/-- C6: a framing attempt whose device answers in two bursts.  If the gap
between the bursts is at most the silence window, both bursts appear
concatenated, in arrival order, in the returned payload; if the gap
exceeds the silence window by more than one poll tick (the granularity of
this model), the call returns the first burst alone with the
response-complete break, i.e. reason data-settled. -/
theorem c6_two_bursts (reg : Registry) (port : String) (h : Handle)
    (arr : Int → List Byte) (t1 t2 ibt mw : Int) (b1 b2 : List Byte)
    (hlook : lookupKey reg port = some h) (hopen : h.is_open = true)
    (hw : h.writeRaises = false)
    (hb1 : arr t1 = b1) (hb2 : arr t2 = b2)
    (hb1ne : b1 ≠ []) (hb2ne : b2 ≠ [])
    (hother : ∀ s : Int, s ≠ t1 → s ≠ t2 → arr s = [])
    (h0 : 0 ≤ t1) (h12 : t1 < t2) (hibt : 0 ≤ ibt) (hmw1 : t1 ≤ mw) :
    (t2 - t1 ≤ ibt → t2 ≤ mw →
      ∃ r, sendAndReceiveBytes reg port arr 0 ibt mw =
        .received (b1 ++ b2) r) ∧
    (ibt + 1 < t2 - t1 → t1 + ibt + 1 ≤ mw →
      sendAndReceiveBytes reg port arr 0 ibt mw = .received b1 .settled) := by
  have havt1 : availAt arr 0 t1 = b1 := by
    rw [← hb1]
    apply availAt_eq_single arr 0 t1 t1 h0 le_rfl
    intro s hs1 hs2 hs3
    exact hother s hs3 (by omega)
  have hb1ne' : availAt arr 0 t1 ≠ [] := by rw [havt1]; exact hb1ne
  have hwait : waitFirstF arr mw (wfFuel 0 mw) 0 = some (.firstByte t1) := by
    obtain ⟨F1, hF1⟩ : ∃ F1, wfFuel 0 mw = (F1 + 1) + t1.toNat :=
      ⟨wfFuel 0 mw - 1 - t1.toNat, by unfold wfFuel; omega⟩
    have hrun := waitFirstF_run arr mw t1.toNat (F1 + 1) 0 (by
      intro s hs1 hs2
      refine ⟨availAt_eq_nil arr 0 s
        (fun u hu1 hu2 => hother u (by omega) (by omega)), by omega⟩)
    rw [hF1, hrun, show (0 : Int) + (t1.toNat : Int) = t1 by omega]
    exact waitFirstF_first arr mw F1 t1 hb1ne'
  constructor
  · -- gap within the silence window: both bursts are concatenated
    intro hA hAmw
    obtain ⟨FA, hFA⟩ : ∃ FA, drFuel t1 mw = ((FA + 1) + (t2 - t1).toNat) + 1 :=
      ⟨drFuel t1 mw - (t2 - t1).toNat - 2, by unfold drFuel; omega⟩
    have hread1 : drainF arr ibt mw (drFuel t1 mw) t1 0 t1 [] =
        drainF arr ibt mw ((FA + 1) + (t2 - t1).toNat) t1 (t1 + 1) t1 b1 := by
      rw [hFA, drainF_read arr ibt mw ((FA + 1) + (t2 - t1).toNat)
        t1 0 t1 [] hb1ne', havt1, List.nil_append]
    have hrun2 := drainF_sleep_run arr ibt mw (t1 + 1) t1 b1 (t2 - t1).toNat
      (FA + 1) t1 (by
        intro s hs1 hs2
        refine ⟨availAt_eq_nil arr (t1 + 1) s
          (fun u hu1 hu2 => hother u (by omega) (by omega)),
          by omega, by omega⟩)
    have ht2 : t1 + ((t2 - t1).toNat : Int) = t2 := by omega
    have havt2 : availAt arr (t1 + 1) t2 = b2 := by
      rw [← hb2]
      apply availAt_eq_single arr (t1 + 1) t2 t2 (by omega) le_rfl
      intro s hs1 hs2 hs3
      exact hother s (by omega) hs3
    have hb2ne' : availAt arr (t1 + 1) t2 ≠ [] := by rw [havt2]; exact hb2ne
    have hread2 : drainF arr ibt mw (FA + 1) t2 (t1 + 1) t1 b1 =
        drainF arr ibt mw FA t2 (t2 + 1) t2 (b1 ++ b2) := by
      rw [drainF_read arr ibt mw FA t2 (t1 + 1) t1 b1 hb2ne', havt2]
    obtain ⟨r, u, hfin⟩ : ∃ r u,
        drainF arr ibt mw FA t2 (t2 + 1) t2 (b1 ++ b2) =
          some (b1 ++ b2, r, u) := by
      apply drainF_drained arr ibt mw (t2 + 1)
        (fun s hs => hother s (by omega) (by omega))
      unfold drFuel at hFA
      omega
    refine ⟨r, ?_⟩
    apply sendAndReceiveBytes_eq_received reg port h arr 0 ibt mw t1 u
      (b1 ++ b2) r hlook hopen hw (by omega) hwait
    rw [hread1, hrun2, ht2, hread2, hfin]
  · -- gap beyond the silence window: the first burst settles alone
    intro hB hBmw
    obtain ⟨FB, hFB⟩ : ∃ FB, drFuel t1 mw = ((FB + 1) + (ibt + 1).toNat) + 1 :=
      ⟨drFuel t1 mw - (ibt + 1).toNat - 2, by unfold drFuel; omega⟩
    have hread1 : drainF arr ibt mw (drFuel t1 mw) t1 0 t1 [] =
        drainF arr ibt mw ((FB + 1) + (ibt + 1).toNat) t1 (t1 + 1) t1 b1 := by
      rw [hFB, drainF_read arr ibt mw ((FB + 1) + (ibt + 1).toNat)
        t1 0 t1 [] hb1ne', havt1, List.nil_append]
    have hrunB := drainF_sleep_run arr ibt mw (t1 + 1) t1 b1 (ibt + 1).toNat
      (FB + 1) t1 (by
        intro s hs1 hs2
        refine ⟨availAt_eq_nil arr (t1 + 1) s
          (fun u hu1 hu2 => hother u (by omega) (by omega)),
          by omega, by omega⟩)
    have hts : t1 + ((ibt + 1).toNat : Int) = t1 + ibt + 1 := by omega
    have havts : availAt arr (t1 + 1) (t1 + ibt + 1) = [] :=
      availAt_eq_nil arr (t1 + 1) (t1 + ibt + 1)
        (fun u hu1 hu2 => hother u (by omega) (by omega))
    have hsettle : drainF arr ibt mw (FB + 1) (t1 + ibt + 1) (t1 + 1) t1 b1 =
        some (b1, .settled, t1 + ibt + 1) :=
      drainF_settled arr ibt mw FB (t1 + ibt + 1) (t1 + 1) t1 b1 havts
        (by omega)
    apply sendAndReceiveBytes_eq_received reg port h arr 0 ibt mw t1
      (t1 + ibt + 1) b1 .settled hlook hopen hw (by omega) hwait
    rw [hread1, hrunB, hts, hsettle]

/-- Device with two bursts one tick apart. -/
def arrTwoClose : Int → List Byte := fun t =>
  if t = 0 then [(1 : Byte)] else if t = 1 then [(2 : Byte)] else []

/-- Device with two bursts three ticks apart. -/
def arrTwoFar : Int → List Byte := fun t =>
  if t = 0 then [(1 : Byte)] else if t = 3 then [(2 : Byte)] else []

/-- C6 witness: with silence window 1 the two bursts one tick apart are
concatenated; with silence window 0 the burst three ticks later is not
collected and the first settles alone. -/
theorem c6_two_bursts_witness :
    (∃ r, sendAndReceiveBytes regOpen "COM1" arrTwoClose 0 1 5 =
      .received ([(1 : Byte)] ++ [(2 : Byte)]) r) ∧
    sendAndReceiveBytes regOpen "COM1" arrTwoFar 0 0 5 =
      .received [(1 : Byte)] .settled := by
  constructor
  · exact (c6_two_bursts regOpen "COM1" ⟨true, false, false, none⟩
      arrTwoClose 0 1 1 5 [(1 : Byte)] [(2 : Byte)] (by decide) (by decide)
      (by decide) (by decide) (by decide) (by decide) (by decide)
      (by
        intro s h1 h2
        simp [arrTwoClose, h1, h2])
      (by decide) (by decide) (by decide) (by decide)).1
      (by decide) (by decide)
  · exact (c6_two_bursts regOpen "COM1" ⟨true, false, false, none⟩
      arrTwoFar 0 3 0 5 [(1 : Byte)] [(2 : Byte)] (by decide) (by decide)
      (by decide) (by decide) (by decide) (by decide) (by decide)
      (by
        intro s h1 h2
        simp [arrTwoFar, h1, h2])
      (by decide) (by decide) (by decide) (by decide)).2
      (by decide) (by decide)

/-- C7: a second open on an id whose registry entry is currently open
fails with the already-open outcome and leaves the registry (hence the
existing handle) untouched, whatever the transport would do; and when the
transport-level open fails, the operation reports the failure and leaves
the registry — including any stale entry for the id — untouched. -/
theorem c7_open_protects_existing (reg : Registry) (port : String)
    (baudrate : Int) (timeout : Option Int) (bytesize : Nat) (parity : String)
    (stopbits : ℚ) (flow_control : String)
    (transport : MappedConfig → Option Handle) :
    (is_port_open reg port = true →
      initializePort reg port baudrate timeout bytesize parity stopbits
        flow_control transport = (.alreadyOpen, reg)) ∧
    (is_port_open reg port = false →
      transport (mappedConfig baudrate timeout bytesize parity stopbits
        flow_control) = none →
      initializePort reg port baudrate timeout bytesize parity stopbits
        flow_control transport = (.openFailed, reg)) := by
  constructor
  · intro hopen
    unfold initializePort
    simp [hopen]
  · intro hopen htr
    unfold initializePort
    simp [hopen, htr]

/-- C7 witness: a second open of the open port "COM1" is refused with the
registry unchanged; an open of the fresh port "COM2" through a failing
transport leaves the registry unchanged as well. -/
theorem c7_open_protects_existing_witness :
    initializePort regOpen "COM1" 9600 none 8 "N" 1 "none" (fun _ => none) =
      (.alreadyOpen, regOpen) ∧
    initializePort regOpen "COM2" 9600 none 8 "N" 1 "none" (fun _ => none) =
      (.openFailed, regOpen) :=
  ⟨(c7_open_protects_existing regOpen "COM1" 9600 none 8 "N" 1 "none"
      (fun _ => none)).1 (by decide),
   (c7_open_protects_existing regOpen "COM2" 9600 none 8 "N" 1 "none"
      (fun _ => none)).2 (by decide) rfl⟩

/-- Whether close_port fails on this registry entry: an open handle whose
close() raises. -/
def failsClose (e : String × Handle) : Bool := e.2.is_open && e.2.closeRaises

/-- A registry with one raising and one well-behaved open handle. -/
def regMix : Registry :=
  [("A", ⟨true, true, false, none⟩), ("B", ⟨true, false, false, none⟩)]

/-- C8.  The claim fails on the code: close_all_ports does not leave the
registry empty — the entry whose underlying close() raised survives (close
of "A" fails, "A" is still registered and still open afterwards). -/
theorem c8_counterexample :
    (close_all_ports regMix).1 = false ∧
    (close_all_ports regMix).2.2 = [("A", ⟨true, true, false, none⟩)] ∧
    is_port_open (close_all_ports regMix).2.2 "A" = true := by
  decide

/-- One unfolding step of the close_all_ports loop. -/
theorem closeAllGo_cons (port : String) (ports : List String)
    (reg : Registry) :
    closeAllGo (port :: ports) reg =
      ((close_port reg port).1 &&
        (closeAllGo ports (close_port reg port).2.2).1,
       (if (close_port reg port).1
        then (closeAllGo ports (close_port reg port).2.2).2.1
        else (port, (close_port reg port).2.1) ::
          (closeAllGo ports (close_port reg port).2.2).2.1),
       (closeAllGo ports (close_port reg port).2.2).2.2) := rfl

/-- close_port on the head entry of a registry without duplicate keys. -/
theorem close_port_head (p : String) (hh : Handle) (rest : Registry)
    (hp : p ∉ rest.map Prod.fst) :
    close_port ((p, hh) :: rest) p =
      if failsClose (p, hh) then (false, .serialError, (p, hh) :: rest)
      else (true, .closedOk, rest) := by
  unfold close_port failsClose
  simp only [lookupKey, if_pos rfl]
  by_cases ho : hh.is_open
  · by_cases hc : hh.closeRaises
    · simp [ho, hc]
    · simp [ho, hc, eraseKey, eraseKey_of_not_mem rest p hp]
  · simp [ho, eraseKey, eraseKey_of_not_mem rest p hp]

/-- C8 (amended): close_all_ports attempts a close for every registered
entry without short-circuiting, succeeds exactly when every individual
close succeeded, and on partial failure names each failing id with its
reason, in registry order; but instead of leaving no entries behind, it
removes exactly the entries whose close succeeded — every entry whose
underlying close() raised is still registered afterwards. -/
theorem c8_close_all_report (reg : Registry) :
    (reg.map Prod.fst).Nodup →
    (((close_all_ports reg).1 = true ↔ (close_all_ports reg).2.1 = []) ∧
     (close_all_ports reg).2.1 =
       (reg.filter failsClose).map (fun e => (e.1, CloseMsg.serialError)) ∧
     (close_all_ports reg).2.2 = reg.filter failsClose) := by
  unfold close_all_ports
  induction reg with
  | nil => intro _; simp [closeAllGo]
  | cons e rest ih =>
    obtain ⟨p, hh⟩ := e
    intro hnd
    simp only [List.map_cons, List.nodup_cons] at hnd
    obtain ⟨hp, hnd'⟩ := hnd
    have hih := ih hnd'
    simp only [List.map_cons]
    rw [closeAllGo_cons, close_port_head p hh rest hp]
    by_cases hf : failsClose (p, hh)
    · rw [if_pos hf]
      simp only
      rw [closeAllGo_cons_skip (rest.map Prod.fst) p hh rest hp]
      refine ⟨?_, ?_, ?_⟩
      · simp
      · simp [List.filter_cons, hf, hih.2.1]
      · simp [List.filter_cons, hf, hih.2.2]
    · rw [if_neg hf]
      simp only
      refine ⟨?_, ?_, ?_⟩
      · simpa using hih.1
      · simp only [List.filter_cons, hf]
        exact hih.2.1
      · simp only [List.filter_cons, hf]
        exact hih.2.2

/-- C8 witness: the amended characterization applied to the mixed registry
(one raising handle "A", one clean handle "B"): the aggregate fails, the
report names exactly "A" with the serial-error reason, and exactly the
raising entry survives. -/
theorem c8_close_all_report_witness :
    ((close_all_ports regMix).1 = true ↔ (close_all_ports regMix).2.1 = []) ∧
    (close_all_ports regMix).2.1 =
      (regMix.filter failsClose).map (fun e => (e.1, CloseMsg.serialError)) ∧
    (close_all_ports regMix).2.2 = regMix.filter failsClose :=
  c8_close_all_report regMix (by decide)

/-- C9: the byte-value projection list(data_bytes) maps each received byte
to its unsigned integer value, below 256, preserving order and length
(element i of the projection is the value of byte i); on the concrete bytes
0x1A 0x2B 0x3C it yields [26, 43, 60]; and both read_data_as_hex and
send_and_receive_hex return exactly this projection of the framed bytes on
success. -/
theorem c9_byte_values :
    (∀ (l : List Byte) (i : Nat),
      (toByteValues l).get? i = (l.get? i).map Fin.val) ∧
    (∀ l : List Byte, ∀ v ∈ toByteValues l, v < 256) ∧
    toByteValues [(26 : Byte), (43 : Byte), (60 : Byte)] = [26, 43, 60] ∧
    (∀ reg port arr fuel data,
      read_data reg port arr fuel = .received data →
      read_data_as_hex reg port arr fuel = (true, toByteValues data)) ∧
    (∀ reg port arr d0 ibt mw data r,
      sendAndReceiveBytes reg port arr d0 ibt mw = .received data r →
      send_and_receive_hex reg port arr d0 ibt mw =
        (true, toByteValues data)) := by
  refine ⟨?_, ?_, by decide, ?_, ?_⟩
  · intro l i
    simp [toByteValues]
  · intro l v hv
    simp only [toByteValues, List.mem_map] at hv
    obtain ⟨b, -, rfl⟩ := hv
    exact b.isLt
  · intro reg port arr fuel data hres
    unfold read_data_as_hex
    rw [hres]
  · intro reg port arr d0 ibt mw data r hres
    unfold send_and_receive_hex
    rw [hres]

/-- C9 witness: position 1 of the projection of [0x1A, 0x2B, 0x3C] is 43,
and read_data_as_hex on a device delivering byte 65 returns the
projection. -/
theorem c9_byte_values_witness :
    (toByteValues [(26 : Byte), (43 : Byte), (60 : Byte)]).get? 1 =
      some 43 ∧
    read_data_as_hex regOpen "COM1" arrBurst0 1 =
      (true, toByteValues [(65 : Byte)]) := by
  constructor
  · rw [c9_byte_values.1 [(26 : Byte), (43 : Byte), (60 : Byte)] 1]
    decide
  · exact c9_byte_values.2.2.2.1 regOpen "COM1" arrBurst0 1 [(65 : Byte)]
      (by decide)

/-- C10: an out-of-range data-bit count, an unrecognized parity letter and
an out-of-range stop-bit value are silently replaced by the defaults
8 / PARITY_NONE / STOPBITS_ONE by the .get calls of initialize_port, an
unrecognized flow-control string silently selects no flow control, and the
operation then proceeds to open the port (there is no configuration-error
outcome): with the port not already open and a transport that accepts the
defaulted configuration, the open succeeds and registers the new handle. -/
theorem c10_invalid_config_defaults :
    (∀ b : Nat, b ≠ 5 → b ≠ 6 → b ≠ 7 → b ≠ 8 → mapBytesize b = 8) ∧
    (∀ p : String, pyUpper p ≠ "N" → pyUpper p ≠ "E" → pyUpper p ≠ "O" →
      pyUpper p ≠ "M" → pyUpper p ≠ "S" → mapParity p = .none) ∧
    (∀ s : ℚ, s ≠ 1 → s ≠ 1.5 → s ≠ 2 → mapStopbits s = .one) ∧
    (∀ f : String, pyLower f ≠ "xonxoff" → pyLower f ≠ "rtscts" →
      pyLower f ≠ "dsrdtr" → mapFlow f = (false, false, false)) ∧
    (∀ (reg : Registry) (port : String) (baudrate : Int)
      (timeout : Option Int) (bytesize : Nat) (parity : String)
      (stopbits : ℚ) (flow_control : String)
      (transport : MappedConfig → Option Handle) (hnew : Handle),
      is_port_open reg port = false →
      transport (mappedConfig baudrate timeout bytesize parity stopbits
        flow_control) = some hnew →
      initializePort reg port baudrate timeout bytesize parity stopbits
        flow_control transport = (.opened, insertKey reg port hnew)) := by
  refine ⟨?_, ?_, ?_, ?_, ?_⟩
  · intro b h5 h6 h7 h8
    simp [mapBytesize, h5, h6, h7, h8]
  · intro p h1 h2 h3 h4 h5
    simp [mapParity, h1, h2, h3, h4, h5]
  · intro s h1 h2 h3
    simp [mapStopbits, h1, h2, h3]
  · intro f h1 h2 h3
    simp [mapFlow, h1, h2, h3]
  · intro reg port baudrate timeout bytesize parity stopbits flow_control
      transport hnew hopen htr
    unfold initializePort
    simp [hopen, htr]

/-- C10 witness: data bits 9, parity "q", stop bits 3 and flow control
"weird" are all invalid; the maps yield the defaults and the open call
still succeeds and registers the handle. -/
theorem c10_invalid_config_defaults_witness :
    mapBytesize 9 = 8 ∧
    mapParity "q" = .none ∧
    mapStopbits 3 = .one ∧
    mapFlow "weird" = (false, false, false) ∧
    initializePort [] "COM9" 9600 none 9 "q" 3 "weird"
      (fun _ => some ⟨true, false, false, none⟩) =
      (.opened, insertKey [] "COM9" ⟨true, false, false, none⟩) := by
  refine ⟨?_, ?_, ?_, ?_, ?_⟩
  · exact c10_invalid_config_defaults.1 9 (by decide) (by decide) (by decide)
      (by decide)
  · exact c10_invalid_config_defaults.2.1 "q" (by decide) (by decide)
      (by decide) (by decide) (by decide)
  · exact c10_invalid_config_defaults.2.2.1 3 (by norm_num) (by norm_num)
      (by norm_num)
  · exact c10_invalid_config_defaults.2.2.2.1 "weird" (by decide) (by decide)
      (by decide)
  · exact c10_invalid_config_defaults.2.2.2.2 [] "COM9" 9600 none 9 "q" 3
      "weird" (fun _ => some ⟨true, false, false, none⟩)
      ⟨true, false, false, none⟩ (by decide) rfl
